import Mathlib

/-!
Verification development for the Dictionary desktop application
(repository pyapril15/Dictionary).

The repository contains two generations of the update subsystem:

* `src/app_services/github_service.py` with classes `GitHubUpdateService`
  and `UpdateUtility`, together with `src/app_logic/update_manager.py`
  (classes `DownloadWorker`, `AbstractUpdateManager`, `UpdateManager`) and
  the handoff code in `main.py`;
* the earlier `src/app_logic/update_logic.py` with `GitHubUpdateChecker`,
  a module-private download worker, and module-level helpers.

Both generations are embedded below.  External effects are made explicit:

* a release-feed query is a value of type `Feed`; `none` models a
  transport failure (`requests.RequestException` caught and logged), and
  `some releases` models a successful response whose JSON array parsed to
  `releases`;
* an HTTP download is a value of type `HttpResult`; `HttpResult.err msg`
  models `requests.get` or `raise_for_status` raising a
  `RequestException`, and `HttpResult.ok r` models a 2xx response with
  declared content length `r.content_length` (`none` when the header is
  absent) whose body arrives as the byte chunks `r.chunks`, exactly as
  yielded by `iter_content(chunk_size=8192)`;
* Qt signal emissions are collected in order into a list of `DlEvent`
  values; local file writes are assumed to succeed, since every claim
  below conditions only on the shape of the HTTP response;
* Python float arithmetic in `int((downloaded / total_size) * 100)` is
  modelled by exact natural-number arithmetic `downloaded * 100 / total`,
  the floor of the exact ratio, following the embedding convention that
  numeric code is translated over `Nat` / `Int`;
* the JSON text layer of `json.dump` / `json.load` is modelled by a
  `Json` document tree: saving encodes the in-memory mapping to a
  document and loading decodes a document back.
-/

/-- Python string comparison `a < b` on character lists: strict
lexicographic order by code point. -/
def charListLt : List Char → List Char → Bool
  | [], [] => false
  | [], _ :: _ => true
  | _ :: _, [] => false
  | a :: as, b :: bs =>
    if a.toNat < b.toNat then true
    else if b.toNat < a.toNat then false
    else charListLt as bs

/-- Python string comparison `a < b` (equivalently `b > a`): plain
lexicographic comparison by code point, no semantic-version parsing. -/
def pyStrLt (a b : String) : Bool := charListLt a.data b.data

/-- Python `str.lstrip("v")`: removes every leading `v` character. -/
def pyLstripV (s : String) : String := String.mk (s.data.dropWhile (fun c => c = 'v'))

/-- Python `str.endswith(t)`, as a suffix test on the character lists. -/
def strEndsWith (s t : String) : Bool := List.isSuffixOf t.data s.data

/-- Comparison definition following the specification wording for tag
parsing: remove exactly one leading `v` character, so a tag with a
repeated prefix character keeps the remaining ones.  This is the
spec-side reading to be compared against the `lstrip` behaviour of the
source; it is not part of the embedded program. -/
def spec_strip_one_leading_v (s : String) : String :=
  match s.data with
  | 'v' :: rest => String.mk rest
  | _ => s

/-- One element of a release `assets` array: a downloadable artifact with a
`name` and a direct `browser_download_url`.  A missing or null URL field is
modelled by the empty string, which is exactly what the Python truthiness
test `if url:` distinguishes. -/
structure Asset where
  name : String
  browser_download_url : String
deriving DecidableEq, Repr

/-- One element of the release feed: a version tag, the artifact list and
the changelog body. -/
structure Release where
  tag_name : String
  assets : List Asset
  body : String
deriving DecidableEq, Repr

/-- Result of one release-feed query.  `none` models a transport failure
(the services catch `RequestException` and fall back to their empty
value); `some releases` models a successful response. -/
abbrev Feed := Option (List Release)

namespace GitHubUpdateService

/-- `GitHubUpdateService.get_latest_release` (github_service.py): first
element of the feed list, `None` when the feed is empty or the request
failed. -/
def get_latest_release (feed : Feed) : Option Release :=
  match feed with
  | none => none
  | some releases => releases.head?

/-- `GitHubUpdateService.get_all_versions` (github_service.py): the set
comprehension over `r["tag_name"].lstrip("v")`; a failed request yields
the empty set. -/
def get_all_versions (feed : Feed) : Finset String :=
  match feed with
  | none => ∅
  | some releases => (releases.map (fun r => pyLstripV r.tag_name)).toFinset

/-- `GitHubUpdateService.get_update_info` (github_service.py): on the
latest release, scan the asset list for the first asset whose name ends
in `.exe` and whose download URL is truthy; return the release, that URL
and the stripped version tag.  Without such an asset the release and the
version are still returned with a null URL; without a release everything
is `None`. -/
def get_update_info (feed : Feed) : Option Release × Option String × Option String :=
  match get_latest_release feed with
  | none => (none, none, none)
  | some release =>
    let version := pyLstripV release.tag_name
    match release.assets.find? (fun a => strEndsWith a.name ".exe" && a.browser_download_url != "") with
    | some asset => (some release, some asset.browser_download_url, some version)
    | none => (some release, none, some version)

end GitHubUpdateService

namespace GitHubUpdateChecker

/-- `GitHubUpdateChecker.get_latest_release` (update_logic.py). -/
def get_latest_release (feed : Feed) : Option Release :=
  match feed with
  | none => none
  | some releases => releases.head?

/-- `GitHubUpdateChecker.get_all_versions` (update_logic.py): identical
comprehension over `lstrip("v")`, empty set on a failed request. -/
def get_all_versions (feed : Feed) : Finset String :=
  match feed with
  | none => ∅
  | some releases => (releases.map (fun r => pyLstripV r.tag_name)).toFinset

/-- `GitHubUpdateChecker.get_update_info` (update_logic.py): returns the
first asset whose name ends in `.exe` (no URL truthiness test here), and
falls through to `(None, None, None)` both when the feed has no release
and when the latest release has no `.exe` asset. -/
def get_update_info (feed : Feed) : Option Release × Option String × Option String :=
  match get_latest_release feed with
  | none => (none, none, none)
  | some release =>
    let version := pyLstripV release.tag_name
    match release.assets.find? (fun a => strEndsWith a.name ".exe") with
    | some asset => (some release, some asset.browser_download_url, some version)
    | none => (none, none, none)

end GitHubUpdateChecker

/-- Shared body of both `check_for_updates` revisions, as a function of the
current version and the `get_update_info` triple.  The result is `some`
of the callback arguments `(release_info, update_url, (current, latest))`
exactly when the callback fires; `none` models the early returns.  The
guards mirror the source: `if not update_url: return` and
`if latest_version and latest_version > current_version`. -/
def check_with_info (current : String)
    (info : Option Release × Option String × Option String) :
    Option (Option Release × String × (String × String)) :=
  match info with
  | (release, update_url, latest_version) =>
    match update_url with
    | none => none
    | some url =>
      if url = "" then none
      else
        match latest_version with
        | none => none
        | some latest =>
          if (latest != "") && pyStrLt current latest then some (release, url, (current, latest))
          else none

namespace UpdateUtility

/-- `UpdateUtility.check_for_updates` (github_service.py), composed with
the service `get_update_info`. -/
def check_for_updates (current : String) (feed : Feed) :
    Option (Option Release × String × (String × String)) :=
  check_with_info current (GitHubUpdateService.get_update_info feed)

/-- `UpdateUtility.is_version_discontinued` (github_service.py):
`current not in get_all_versions()`. -/
def is_version_discontinued (current : String) (feed : Feed) : Bool :=
  decide (current ∉ GitHubUpdateService.get_all_versions feed)

end UpdateUtility

namespace UpdateLogic

/-- Module-level `check_for_updates` (update_logic.py), composed with the
checker `get_update_info`. -/
def check_for_updates (current : String) (feed : Feed) :
    Option (Option Release × String × (String × String)) :=
  check_with_info current (GitHubUpdateChecker.get_update_info feed)

/-- Module-level `is_version_discontinued` (update_logic.py). -/
def is_version_discontinued (current : String) (feed : Feed) : Bool :=
  decide (current ∉ GitHubUpdateChecker.get_all_versions feed)

end UpdateLogic

/-- One observable notification of a download worker: a value sent on
`progress_signal`, `status_signal` or `download_complete_signal`. -/
inductive DlEvent where
  | progress (pct : Nat)
  | status (msg : String)
  | complete
deriving DecidableEq, Repr

/-- A successfully opened streaming response: the declared
`content-length` header (`none` when absent) and the body chunks exactly
as yielded by `iter_content(chunk_size=8192)`; each chunk is a byte
list. -/
structure HttpResponse where
  content_length : Option Nat
  chunks : List (List Nat)
deriving DecidableEq, Repr

/-- Outcome of `requests.get` followed by `raise_for_status`:
`err msg` models a raised `RequestException` (network failure or non-2xx
status), `ok r` a usable streaming response. -/
inductive HttpResult where
  | err (msg : String)
  | ok (response : HttpResponse)
deriving DecidableEq, Repr

namespace DownloadWorker

/-- Chunk loop of `DownloadWorker._download_file` (update_manager.py):
empty chunks are skipped by `if chunk:`, and after writing each chunk the
worker emits `int((downloaded / total_size) * 100)` — modelled as the
exact floor `downloaded * 100 / total_size`. -/
def chunk_events (total_size : Nat) : List (List Nat) → Nat → List DlEvent
  | [], _ => []
  | chunk :: rest, downloaded =>
    if chunk = [] then chunk_events total_size rest downloaded
    else
      DlEvent.progress ((downloaded + chunk.length) * 100 / total_size)
        :: chunk_events total_size rest (downloaded + chunk.length)

/-- Signal trace of `DownloadWorker._download_file` (update_manager.py).
A raised `RequestException` is reported as `Network error: ...`; a zero
or absent declared content length raises
`ValueError("Download failed: No content received.")`, caught by the
generic handler which emits `Download failed: {e}`; otherwise the chunk
loop runs and `download_complete_signal` fires once at the end. -/
def download_file (result : HttpResult) : List DlEvent :=
  match result with
  | .err msg => [DlEvent.status ("Network error: " ++ msg)]
  | .ok response =>
    let total_size := response.content_length.getD 0
    if total_size = 0 then
      [DlEvent.status "Download failed: Download failed: No content received."]
    else
      chunk_events total_size response.chunks 0 ++ [DlEvent.complete]

end DownloadWorker

namespace UpdateLogicDownloadWorker

/-- Chunk loop of the module-private download worker in update_logic.py.
That revision has no zero-length guard: when the declared total is zero
and a nonempty chunk arrives, `int((downloaded / total_size) * 100)`
raises `ZeroDivisionError`; the returned flag records whether the loop
raised.  Progress values already emitted stay emitted. -/
def chunk_events (total_size : Nat) : List (List Nat) → Nat → List DlEvent × Bool
  | [], _ => ([], false)
  | chunk :: rest, downloaded =>
    if chunk = [] then chunk_events total_size rest downloaded
    else if total_size = 0 then ([], true)
    else
      let d := downloaded + chunk.length
      let next := chunk_events total_size rest d
      (DlEvent.progress (d * 100 / total_size) :: next.1, next.2)

/-- Signal trace of `_DownloadWorker._download_file` (update_logic.py).
Every exception, transport errors included, lands in the single handler
emitting `Update failed: {e}`; an empty body with zero declared length
runs the loop zero times and emits the completion signal. -/
def download_file (result : HttpResult) : List DlEvent :=
  match result with
  | .err msg => [DlEvent.status ("Update failed: " ++ msg)]
  | .ok response =>
    let total_size := response.content_length.getD 0
    let run := chunk_events total_size response.chunks 0
    run.1 ++ (if run.2 then [DlEvent.status "Update failed: division by zero"]
              else [DlEvent.complete])

end UpdateLogicDownloadWorker

/-- Cumulative byte counts at which the worker loop emits a progress
notification: one entry per nonempty chunk, holding the bytes received
so far including that chunk. -/
def emit_points : List (List Nat) → Nat → List Nat
  | [], _ => []
  | chunk :: rest, acc =>
    if chunk = [] then emit_points rest acc
    else (acc + chunk.length) :: emit_points rest (acc + chunk.length)

/-- Total number of body bytes across all chunks. -/
def total_bytes (chunks : List (List Nat)) : Nat := (chunks.map List.length).sum

namespace AbstractUpdateManager

/-- Destination filename computed in `AbstractUpdateManager.__init__`
(update_manager.py): `f"Dictionary_{version}.exe"`, where `version` is
the constructor argument.  The update window constructs the manager with
`versions[1]`, the latest (downloaded) version. -/
def filename (version : String) : String := "Dictionary_" ++ version ++ ".exe"

end AbstractUpdateManager

namespace DictionaryApp

/-- Last path component removal, modelling `Path(exe_path).parent` for
slash-separated paths. -/
def parentDir (p : String) : String :=
  String.mk (((p.data.reverse.dropWhile (fun c => c ≠ '/')).drop 1).reverse)

/-- Name of the executable the batch script starts, from
`DictionaryApp._schedule_self_delete` (main.py):
`f"Dictionary_{self._config.app_version}.exe"` — note that
`config.app_version` is the running (current) version. -/
def new_exe (app_version : String) : String := "Dictionary_" ++ app_version ++ ".exe"

/-- The literal batch script written by `_schedule_self_delete`
(main.py): wait 2 seconds, delete the running executable, start the file
named by `new_exe`, delete the script itself.  The embedded text keeps
the 8-space indentation of the Python triple-quoted f-string. -/
def bat_script (exe_path new_exe_path : String) : String :=
  "@echo off\n        timeout /t 2 > NUL\n        del \"" ++ exe_path ++
    "\" > NUL 2>&1\n        start \"\" \"" ++ new_exe_path ++
    "\"\n        del \"%~f0\" > NUL 2>&1\n        "

/-- Everything `_schedule_self_delete` does, as data: where the script is
written, its text, which executable it starts, and the exit code passed
to `sys.exit`. -/
structure SelfDeleteAction where
  bat_path : String
  script : String
  launched_exe : String
  exit_code : Nat
deriving DecidableEq, Repr

/-- `DictionaryApp._schedule_self_delete` (main.py), with
`exe_path = config.exe_dir` (the running executable) and
`app_version = config.app_version` (the running version, fixed at
initialization). -/
def schedule_self_delete (exe_path : String) (app_version : String) : SelfDeleteAction :=
  let folder := parentDir exe_path
  let new_exe_path := folder ++ "/" ++ new_exe app_version
  { bat_path := folder ++ "/delete_self.bat"
  , script := bat_script exe_path new_exe_path
  , launched_exe := new_exe_path
  , exit_code := 0 }

end DictionaryApp

/-- One WordNet synset as the lookup collaborator exposes it: a gloss and
its usage examples. -/
structure Synset where
  gloss : String
  examples : List String
deriving DecidableEq, Repr

/-- One sense record as stored in the cache: the dict
`{"definition": ..., "examples": [...]}` built from a synset. -/
structure Sense where
  definition : String
  examples : List String
deriving DecidableEq, Repr

/-- A JSON document, the value written by `json.dump` and produced by
`json.load`. -/
inductive Json where
  | null
  | bool (b : Bool)
  | num (n : Int)
  | str (s : String)
  | arr (elems : List Json)
  | obj (fields : List (String × Json))

/-- All-or-nothing elementwise decoding, the Option instance of
`List.mapM` written out. -/
def mapOpt (f : α → Option β) : List α → Option (List β)
  | [] => some []
  | a :: as =>
    match f a, mapOpt f as with
    | some b, some bs => some (b :: bs)
    | _, _ => none

/-- Python dict assignment `m[k] = v` on an insertion-ordered association
list: an existing key keeps its position and gets the new value, a new
key is appended at the end. -/
def dictInsert (m : List (String × α)) (k : String) (v : α) : List (String × α) :=
  match m with
  | [] => [(k, v)]
  | (k₀, v₀) :: rest => if k₀ = k then (k, v) :: rest else (k₀, v₀) :: dictInsert rest k v

/-- Encoding of one sense record into the cache document. -/
def Sense.toJson (s : Sense) : Json :=
  Json.obj [("definition", Json.str s.definition), ("examples", Json.arr (s.examples.map Json.str))]

/-- Encoding of the whole definitions mapping, the document
`json.dump(self._definitions_cache, ...)` writes. -/
def cacheToJson (cache : List (String × List Sense)) : Json :=
  Json.obj (cache.map (fun kv => (kv.1, Json.arr (kv.2.map Sense.toJson))))

/-- Decoding of a JSON string. -/
def strOfJson : Json → Option String
  | Json.str s => some s
  | _ => none

/-- Decoding of one sense record from the cache document shape. -/
def Sense.ofJson : Json → Option Sense
  | Json.obj [("definition", Json.str d), ("examples", Json.arr es)] =>
    match mapOpt strOfJson es with
    | some exs => some ⟨d, exs⟩
    | none => none
  | _ => none

/-- Decoding of a sense list. -/
def sensesOfJson : Json → Option (List Sense)
  | Json.arr xs => mapOpt Sense.ofJson xs
  | _ => none

/-- Decoding of one object field into a cache entry. -/
def fieldOfJson (kv : String × Json) : Option (String × List Sense) :=
  match sensesOfJson kv.2 with
  | some ss => some (kv.1, ss)
  | none => none

/-- `json.load` of a cache document, restricted to the defined shape
(word mapped to an array of sense records); the decoded pairs are folded
into a dict with Python dict construction order, so duplicate keys are
last-write-wins.  Off-shape documents decode to `none`. -/
def cacheOfJson : Json → Option (List (String × List Sense))
  | Json.obj fields =>
    match mapOpt fieldOfJson fields with
    | some pairs => some (pairs.foldl (fun m kv => dictInsert m kv.1 kv.2) [])
    | none => none
  | _ => none

/-- State of `_DictionaryService` (dictionary.py): the in-memory
`_definitions_cache` and the cache file, `none` when the file does not
exist and `some doc` when it holds the JSON document `doc`. -/
structure DictionaryState where
  definitions_cache : List (String × List Sense)
  disk : Option Json

/-- `_DictionaryService.save_cached_definitions` (dictionary.py):
`json.dump` of the current in-memory mapping over the cache file. -/
def save_cached_definitions (st : DictionaryState) : DictionaryState :=
  { st with disk := some (cacheToJson st.definitions_cache) }

/-- `_DictionaryService.load_cached_definitions` (dictionary.py): read the
cache file into the in-memory mapping; a missing file or an off-shape or
corrupt document leaves the mapping unchanged (the except branches only
log). -/
def load_cached_definitions (st : DictionaryState) : List (String × List Sense) :=
  match st.disk with
  | none => st.definitions_cache
  | some doc => (cacheOfJson doc).getD st.definitions_cache

/-- `_DictionaryService.add_to_cache` (dictionary.py): reject a falsy word
or falsy definitions list, otherwise assign `cache[word] = definitions`
and synchronously `save_cached_definitions`. -/
def add_to_cache (st : DictionaryState) (word : String) (definitions : List Sense) :
    DictionaryState :=
  if word = "" ∨ definitions = [] then st
  else
    save_cached_definitions
      { st with definitions_cache := dictInsert st.definitions_cache word definitions }

namespace DictionaryService

/-- `_DictionaryService.fetch_definitions` (dictionary.py).  The WordNet
collaborator is the parameter `synsets`; `synsets w = none` models
`wn.synsets` raising (the except branch returns `None`), `some l` a
successful lookup.  An empty word and an empty synset list both return
`None`; otherwise each synset becomes a sense record. -/
def fetch_definitions (synsets : String → Option (List Synset)) (word : String) :
    Option (List Sense) :=
  if word = "" then none
  else
    match synsets word with
    | none => none
    | some [] => none
    | some ss => some (ss.map (fun s => ⟨s.gloss, s.examples⟩))

end DictionaryService

namespace DictionaryManager

/-- Module-level `fetch_definitions` (dictionary_manager.py): builds the
record list from `wn.synsets(word)` and returns
`definitions if definitions else None`.  This revision has no error
handling, so the collaborator is a total function. -/
def fetch_definitions (synsets : String → List Synset) (word : String) :
    Option (List Sense) :=
  let definitions := (synsets word).map (fun s => (⟨s.gloss, s.examples⟩ : Sense))
  if definitions = [] then none else some definitions

end DictionaryManager

/-! ### Helper lemmas -/

/-- No string is lexicographically below the empty string. -/
theorem pyStrLt_empty (s : String) : pyStrLt s "" = false := by
  cases h : s.data with
  | nil => simp [pyStrLt, h, charListLt]
  | cons a as => simp [pyStrLt, h, charListLt]

/-- When the callback of either `check_for_updates` revision fires, as a
function of the components of the `get_update_info` triple. -/
theorem check_with_info_isSome (current : String) (r : Option Release)
    (u v : Option String) :
    (check_with_info current (r, u, v)).isSome = true ↔
      (u.getD "" ≠ "" ∧ pyStrLt current (v.getD "") = true) := by
  cases u with
  | none => simp [check_with_info]
  | some url =>
    by_cases hu : url = ""
    · subst hu; simp [check_with_info]
    · cases v with
      | none => simp [check_with_info, hu, pyStrLt_empty]
      | some latest =>
        by_cases hv : latest = ""
        · subst hv; simp [check_with_info, hu, pyStrLt_empty]
        · by_cases hlt : pyStrLt current latest = true <;>
            simp [check_with_info, hu, hv, hlt]

/-- A URL returned by the service `get_update_info` is never the empty
string, and release and version accompany it. -/
theorem gs_update_info_shape (feed : Feed) (u : String)
    (h : (GitHubUpdateService.get_update_info feed).2.1 = some u) :
    u ≠ "" ∧ (GitHubUpdateService.get_update_info feed).1.isSome = true
      ∧ (GitHubUpdateService.get_update_info feed).2.2.isSome = true := by
  cases feed with
  | none => simp [GitHubUpdateService.get_update_info, GitHubUpdateService.get_latest_release] at h
  | some releases =>
    cases releases with
    | nil => simp [GitHubUpdateService.get_update_info, GitHubUpdateService.get_latest_release] at h
    | cons rel rest =>
      rcases hf : rel.assets.find?
          (fun a => strEndsWith a.name ".exe" && a.browser_download_url != "") with _ | a
      · simp [GitHubUpdateService.get_update_info, GitHubUpdateService.get_latest_release, hf] at h
      · have hp := List.find?_some hf
        simp only [Bool.and_eq_true, bne_iff_ne, ne_eq] at hp
        simp [GitHubUpdateService.get_update_info, GitHubUpdateService.get_latest_release, hf] at h ⊢
        exact h ▸ hp.2

/-- A version string returned with a URL by the checker
`get_update_info` is always present. -/
theorem ul_update_info_shape (feed : Feed) (u : String)
    (h : (GitHubUpdateChecker.get_update_info feed).2.1 = some u) :
    (GitHubUpdateChecker.get_update_info feed).2.2.isSome = true := by
  cases feed with
  | none => simp [GitHubUpdateChecker.get_update_info, GitHubUpdateChecker.get_latest_release] at h
  | some releases =>
    cases releases with
    | nil => simp [GitHubUpdateChecker.get_update_info, GitHubUpdateChecker.get_latest_release] at h
    | cons rel rest =>
      rcases hf : rel.assets.find? (fun a => strEndsWith a.name ".exe") with _ | a
      · simp [GitHubUpdateChecker.get_update_info, GitHubUpdateChecker.get_latest_release, hf] at h
      · simp [GitHubUpdateChecker.get_update_info, GitHubUpdateChecker.get_latest_release, hf]

/-- The worker chunk loop is the progress map over the cumulative byte
counts. -/
theorem chunk_events_eq_map (total : Nat) (cs : List (List Nat)) (acc : Nat) :
    DownloadWorker.chunk_events total cs acc
      = (emit_points cs acc).map (fun d => DlEvent.progress (d * 100 / total)) := by
  induction cs generalizing acc with
  | nil => simp [DownloadWorker.chunk_events, emit_points]
  | cons c cs ih =>
    by_cases hc : c = [] <;>
      simp [DownloadWorker.chunk_events, emit_points, hc, ih]

/-- Every emitted byte count lies between the starting accumulator and the
accumulator plus all remaining bytes. -/
theorem emit_points_bounds (cs : List (List Nat)) (acc : Nat) :
    ∀ d ∈ emit_points cs acc, acc ≤ d ∧ d ≤ acc + total_bytes cs := by
  induction cs generalizing acc with
  | nil => simp [emit_points]
  | cons c cs ih =>
    intro d hd
    by_cases hc : c = []
    · simp only [emit_points, if_pos hc] at hd
      have := ih acc d hd
      simpa [total_bytes, hc] using this
    · simp only [emit_points, if_neg hc, List.mem_cons] at hd
      rcases hd with rfl | hd
      · constructor
        · exact Nat.le_add_right _ _
        · have : total_bytes (c :: cs) = c.length + total_bytes cs := by
            simp [total_bytes]
          omega
      · have := ih (acc + c.length) d hd
        have htb : total_bytes (c :: cs) = c.length + total_bytes cs := by
          simp [total_bytes]
        omega

/-- The emitted byte counts are non-decreasing. -/
theorem emit_points_chain (cs : List (List Nat)) (acc : Nat) :
    List.Chain' (· ≤ ·) (emit_points cs acc) := by
  induction cs generalizing acc with
  | nil => simp [emit_points]
  | cons c cs ih =>
    by_cases hc : c = []
    · simpa [emit_points, hc] using ih acc
    · simp only [emit_points, if_neg hc]
      refine List.chain'_cons'.mpr ⟨?_, ih _⟩
      intro y hy
      exact (emit_points_bounds cs _ y (List.mem_of_mem_head? hy)).1

/-- The loop emits nothing exactly when every chunk is empty. -/
theorem emit_points_eq_nil_iff (cs : List (List Nat)) (acc : Nat) :
    emit_points cs acc = [] ↔ ∀ c ∈ cs, c = [] := by
  induction cs generalizing acc with
  | nil => simp [emit_points]
  | cons c cs ih =>
    by_cases hc : c = [] <;> simp [emit_points, hc, ih]

/-- A run of empty chunks carries no bytes. -/
theorem total_bytes_eq_zero (cs : List (List Nat)) (h : ∀ c ∈ cs, c = []) :
    total_bytes cs = 0 := by
  induction cs with
  | nil => simp [total_bytes]
  | cons c cs ih =>
    have hc := h c (by simp)
    have hrest : ∀ x ∈ cs, x = [] := fun x hx => h x (by simp [hx])
    simp [total_bytes, hc]
    simpa [total_bytes] using ih hrest

/-- The last emitted byte count is the full byte total, as soon as some
chunk is nonempty. -/
theorem emit_points_getLast (cs : List (List Nat)) (acc : Nat)
    (h : ∃ c ∈ cs, c ≠ []) :
    (emit_points cs acc).getLast? = some (acc + total_bytes cs) := by
  induction cs generalizing acc with
  | nil => simp at h
  | cons c cs ih =>
    by_cases hc : c = []
    · have h2 : ∃ x ∈ cs, x ≠ [] := by
        rcases h with ⟨x, hx, hne⟩
        rcases List.mem_cons.mp hx with rfl | hx
        · exact absurd hc hne
        · exact ⟨x, hx, hne⟩
      rw [show emit_points (c :: cs) acc = emit_points cs acc by
            simp [emit_points, hc]]
      rw [ih acc h2]
      simp [total_bytes, hc]
    · simp only [emit_points, if_neg hc]
      by_cases h2 : ∃ x ∈ cs, x ≠ []
      · rcases hne : emit_points cs (acc + c.length) with _ | ⟨b, l⟩
        · exact absurd ((emit_points_eq_nil_iff cs _).mp hne) (by
            rcases h2 with ⟨x, hx, hxne⟩
            intro hall
            exact hxne (hall x hx))
        · rw [List.getLast?_cons_cons]
          rw [← hne, ih _ h2]
          have : total_bytes (c :: cs) = c.length + total_bytes cs := by
            simp [total_bytes]
          rw [this]
          ring_nf
      · push_neg at h2
        have hall : ∀ x ∈ cs, x = [] := h2
        rw [(emit_points_eq_nil_iff cs _).mpr hall]
        have : total_bytes (c :: cs) = c.length := by
          simp [total_bytes, total_bytes_eq_zero cs hall]
          simpa [total_bytes] using total_bytes_eq_zero cs hall
        simp [this]

/-- Whatever survives at the head of a `dropWhile` fails the predicate. -/
theorem head_dropWhile_false (p : Char → Bool) (l : List Char) (a : Char)
    (h : (l.dropWhile p).head? = some a) : p a = false := by
  induction l with
  | nil => simp [List.dropWhile] at h
  | cons x xs ih =>
    by_cases hx : p x = true
    · exact ih (by simpa [List.dropWhile, hx] using h)
    · have hx' : p x = false := by simpa using hx
      simp [List.dropWhile, hx'] at h
      exact h ▸ hx'

/-- Looking up the key just assigned returns the assigned value. -/
theorem dictInsert_lookup_self (m : List (String × α)) (k : String) (v : α) :
    (dictInsert m k v).lookup k = some v := by
  induction m with
  | nil => simp [dictInsert, List.lookup]
  | cons kv rest ih =>
    obtain ⟨k₀, v₀⟩ := kv
    by_cases hk : k₀ = k
    · simp [dictInsert, hk, List.lookup]
    · have hbeq : (k == k₀) = false := beq_eq_false_iff_ne.mpr (Ne.symm hk)
      simp [dictInsert, hk, List.lookup, hbeq, ih]

/-- Assigning one key leaves the lookup of every other key unchanged. -/
theorem dictInsert_lookup_other (m : List (String × α)) (k k₁ : String) (v : α)
    (hne : k₁ ≠ k) : (dictInsert m k v).lookup k₁ = m.lookup k₁ := by
  have hbeq : (k₁ == k) = false := beq_eq_false_iff_ne.mpr hne
  induction m with
  | nil => simp [dictInsert, List.lookup, hbeq]
  | cons kv rest ih =>
    obtain ⟨k₀, v₀⟩ := kv
    by_cases hk : k₀ = k
    · subst hk
      simp [dictInsert, List.lookup, hbeq]
    · by_cases hk₁ : (k₁ == k₀) = true <;>
        simp [dictInsert, hk, List.lookup, hk₁, ih]

/-- Assigning a fresh key appends it at the end. -/
theorem dictInsert_fresh (m : List (String × α)) (k : String) (v : α)
    (h : ∀ kv ∈ m, kv.1 ≠ k) : dictInsert m k v = m ++ [(k, v)] := by
  induction m with
  | nil => simp [dictInsert]
  | cons kv rest ih =>
    obtain ⟨k₀, v₀⟩ := kv
    have hk : k₀ ≠ k := h (k₀, v₀) (by simp)
    simp [dictInsert, hk]
    exact ih (fun kv hkv => h kv (by simp [hkv]))

/-- Rebuilding a dict from pairs with pairwise-fresh keys reproduces the
pairs in order. -/
theorem foldl_dictInsert_nodup (pairs : List (String × α)) :
    ∀ acc : List (String × α),
      (pairs.map Prod.fst).Nodup →
      (∀ kv ∈ pairs, ∀ kv₀ ∈ acc, (kv₀ : String × α).1 ≠ kv.1) →
      pairs.foldl (fun m kv => dictInsert m kv.1 kv.2) acc = acc ++ pairs := by
  induction pairs with
  | nil => intro acc _ _; simp
  | cons kv rest ih =>
    intro acc hnd hdisj
    obtain ⟨k, v⟩ := kv
    simp only [List.foldl_cons]
    rw [dictInsert_fresh acc k v (fun kv₀ h₀ => hdisj (k, v) (by simp) kv₀ h₀)]
    rw [ih (acc ++ [(k, v)]) (by simpa using (List.nodup_cons.mp (by simpa using hnd)).2) ?_]
    · simp
    · intro kv₁ h₁ kv₀ h₀
      rcases List.mem_append.mp h₀ with h₀ | h₀
      · exact hdisj kv₁ (by simp [h₁]) kv₀ h₀
      · have hk : kv₀ = (k, v) := by simpa using h₀
        subst hk
        have hnotin : k ∉ rest.map Prod.fst := (List.nodup_cons.mp (by simpa using hnd)).1
        intro hEq
        refine hnotin ?_
        rw [show k = kv₁.1 from hEq]
        exact List.mem_map.mpr ⟨kv₁, h₁, rfl⟩

/-- A mapped string list decodes back to itself. -/
theorem mapOpt_strOfJson (l : List String) :
    mapOpt strOfJson (l.map Json.str) = some l := by
  induction l with
  | nil => simp [mapOpt]
  | cons s rest ih => simp [mapOpt, strOfJson, ih]

/-- One sense record decodes back to itself. -/
theorem sense_ofJson_toJson (s : Sense) : Sense.ofJson s.toJson = some s := by
  obtain ⟨d, exs⟩ := s
  simp [Sense.toJson, Sense.ofJson, mapOpt_strOfJson]

/-- A sense list decodes back to itself. -/
theorem senses_roundtrip (ss : List Sense) :
    sensesOfJson (Json.arr (ss.map Sense.toJson)) = some ss := by
  induction ss with
  | nil => simp [sensesOfJson, mapOpt]
  | cons s rest ih =>
    have ih' : mapOpt Sense.ofJson (rest.map Sense.toJson) = some rest := by
      simpa [sensesOfJson] using ih
    simp [sensesOfJson, mapOpt, sense_ofJson_toJson, ih']

/-- The encoded fields of a cache decode back to exactly the cache
entries, in order. -/
theorem mapOpt_field_roundtrip (cache : List (String × List Sense)) :
    mapOpt fieldOfJson
        (cache.map (fun kv => (kv.1, Json.arr (kv.2.map Sense.toJson)))) = some cache := by
  induction cache with
  | nil => simp [mapOpt]
  | cons kv rest ih =>
    obtain ⟨w, ss⟩ := kv
    simp [mapOpt, fieldOfJson, senses_roundtrip, ih]

/-! ### Claim theorems -/

set_option maxRecDepth 16384

/-- C1: the forced-update handoff writes a script adjacent to the running
executable that waits 2 seconds, deletes the running executable, launches
a file and deletes itself, and the process exits with code 0 — but the
launched file is named from the running `config.app_version`, not from
the downloaded version: with current version `1.0.0` and downloaded
version `2.0.0` the worker saves `Dictionary_2.0.0.exe` while the script
starts `Dictionary_1.0.0.exe`, so the script never launches the file the
download worker saved. -/
theorem c1_handoff_launches_stale_filename :
    AbstractUpdateManager.filename "2.0.0" = "Dictionary_2.0.0.exe"
    ∧ (DictionaryApp.schedule_self_delete "C:/Users/app/Dictionary.exe" "1.0.0").bat_path
        = "C:/Users/app/delete_self.bat"
    ∧ (DictionaryApp.schedule_self_delete "C:/Users/app/Dictionary.exe" "1.0.0").script
        = "@echo off\n        timeout /t 2 > NUL\n        del \"C:/Users/app/Dictionary.exe\" > NUL 2>&1\n        start \"\" \"C:/Users/app/Dictionary_1.0.0.exe\"\n        del \"%~f0\" > NUL 2>&1\n        "
    ∧ (DictionaryApp.schedule_self_delete "C:/Users/app/Dictionary.exe" "1.0.0").launched_exe
        = "C:/Users/app/Dictionary_1.0.0.exe"
    ∧ strEndsWith
        (DictionaryApp.schedule_self_delete "C:/Users/app/Dictionary.exe" "1.0.0").launched_exe
        (AbstractUpdateManager.filename "2.0.0") = false
    ∧ (DictionaryApp.schedule_self_delete "C:/Users/app/Dictionary.exe" "1.0.0").exit_code = 0 := by
  refine ⟨rfl, by decide, by decide, by decide, by decide, rfl⟩

/-- C4: either revision of the update check invokes its callback exactly
when an artifact URL was resolved and the resolved latest version is
lexicographically greater than the current version as a plain string
comparison; on an equal or smaller latest version, or without a resolved
URL, no update is offered. -/
theorem c4_update_check_iff (current : String) (feed : Feed) :
    ((UpdateUtility.check_for_updates current feed).isSome = true ↔
      ((GitHubUpdateService.get_update_info feed).2.1.isSome = true ∧
        pyStrLt current ((GitHubUpdateService.get_update_info feed).2.2.getD "") = true))
    ∧ ((UpdateLogic.check_for_updates current feed).isSome = true ↔
      ((GitHubUpdateChecker.get_update_info feed).2.1.getD "" ≠ "" ∧
        pyStrLt current ((GitHubUpdateChecker.get_update_info feed).2.2.getD "") = true)) := by
  constructor
  · rcases hinfo : GitHubUpdateService.get_update_info feed with ⟨r, u, v⟩
    rw [show UpdateUtility.check_for_updates current feed
          = check_with_info current (r, u, v) by
        rw [UpdateUtility.check_for_updates, hinfo]]
    rw [check_with_info_isSome]
    cases u with
    | none => simp
    | some url =>
      have hsh := gs_update_info_shape feed url (by rw [hinfo])
      simp [hsh.1]
  · rcases hinfo : GitHubUpdateChecker.get_update_info feed with ⟨r, u, v⟩
    rw [show UpdateLogic.check_for_updates current feed
          = check_with_info current (r, u, v) by
        rw [UpdateLogic.check_for_updates, hinfo]]
    rw [check_with_info_isSome]

/-- C4 witness: concrete feed carrying release `v2.0.0` with an `.exe`
asset, current version `1.0.0`. -/
theorem c4_update_check_iff_witness :
    ((UpdateUtility.check_for_updates "1.0.0"
        (some [⟨"v2.0.0", [⟨"App.exe", "http://x/App.exe"⟩], "notes"⟩])).isSome = true ↔
      ((GitHubUpdateService.get_update_info
          (some [⟨"v2.0.0", [⟨"App.exe", "http://x/App.exe"⟩], "notes"⟩])).2.1.isSome = true ∧
        pyStrLt "1.0.0" ((GitHubUpdateService.get_update_info
          (some [⟨"v2.0.0", [⟨"App.exe", "http://x/App.exe"⟩], "notes"⟩])).2.2.getD "") = true))
    ∧ ((UpdateLogic.check_for_updates "1.0.0"
        (some [⟨"v2.0.0", [⟨"App.exe", "http://x/App.exe"⟩], "notes"⟩])).isSome = true ↔
      ((GitHubUpdateChecker.get_update_info
          (some [⟨"v2.0.0", [⟨"App.exe", "http://x/App.exe"⟩], "notes"⟩])).2.1.getD "" ≠ "" ∧
        pyStrLt "1.0.0" ((GitHubUpdateChecker.get_update_info
          (some [⟨"v2.0.0", [⟨"App.exe", "http://x/App.exe"⟩], "notes"⟩])).2.2.getD "") = true)) :=
  c4_update_check_iff "1.0.0" (some [⟨"v2.0.0", [⟨"App.exe", "http://x/App.exe"⟩], "notes"⟩])

/-- C5: either revision reports the current version discontinued exactly
when it is not a member of the computed version set; a failed feed query
yields the empty set, so every version is then reported discontinued. -/
theorem c5_discontinued_iff_not_member (current : String) (feed : Feed) :
    (UpdateUtility.is_version_discontinued current feed = true ↔
      current ∉ GitHubUpdateService.get_all_versions feed)
    ∧ (UpdateUtility.is_version_discontinued current feed = false ↔
      current ∈ GitHubUpdateService.get_all_versions feed)
    ∧ UpdateUtility.is_version_discontinued current none = true
    ∧ (UpdateLogic.is_version_discontinued current feed = true ↔
      current ∉ GitHubUpdateChecker.get_all_versions feed)
    ∧ UpdateLogic.is_version_discontinued current none = true
    ∧ GitHubUpdateService.get_all_versions none = ∅
    ∧ GitHubUpdateChecker.get_all_versions none = ∅ := by
  refine ⟨?_, ?_, ?_, ?_, ?_, rfl, rfl⟩ <;>
    simp [UpdateUtility.is_version_discontinued, UpdateLogic.is_version_discontinued,
      GitHubUpdateService.get_all_versions, GitHubUpdateChecker.get_all_versions]

/-- C5 witness: with the feed listing exactly tag `v1.0.0`, version
`1.0.0` is not discontinued. -/
theorem c5_discontinued_iff_not_member_witness :
    (UpdateUtility.is_version_discontinued "1.0.0" (some [⟨"v1.0.0", [], ""⟩]) = true ↔
      "1.0.0" ∉ GitHubUpdateService.get_all_versions (some [⟨"v1.0.0", [], ""⟩]))
    ∧ (UpdateUtility.is_version_discontinued "1.0.0" (some [⟨"v1.0.0", [], ""⟩]) = false ↔
      "1.0.0" ∈ GitHubUpdateService.get_all_versions (some [⟨"v1.0.0", [], ""⟩]))
    ∧ UpdateUtility.is_version_discontinued "1.0.0" none = true
    ∧ (UpdateLogic.is_version_discontinued "1.0.0" (some [⟨"v1.0.0", [], ""⟩]) = true ↔
      "1.0.0" ∉ GitHubUpdateChecker.get_all_versions (some [⟨"v1.0.0", [], ""⟩]))
    ∧ UpdateLogic.is_version_discontinued "1.0.0" none = true
    ∧ GitHubUpdateService.get_all_versions none = ∅
    ∧ GitHubUpdateChecker.get_all_versions none = ∅ :=
  c5_discontinued_iff_not_member "1.0.0" (some [⟨"v1.0.0", [], ""⟩])

/-- C6 (amended): when the latest release carries no asset whose name
ends in `.exe`, the service revision returns the release and its parsed
version with a null URL, while the earlier checker revision instead
collapses the whole triple to `(None, None, None)`. -/
theorem c6_no_exe_asset (r : Release) (rest : List Release)
    (h : ∀ a ∈ r.assets, strEndsWith a.name ".exe" = false) :
    GitHubUpdateService.get_update_info (some (r :: rest))
      = (some r, none, some (pyLstripV r.tag_name))
    ∧ GitHubUpdateChecker.get_update_info (some (r :: rest)) = (none, none, none) := by
  have hgs : r.assets.find?
      (fun a => strEndsWith a.name ".exe" && a.browser_download_url != "") = none :=
    List.find?_eq_none.mpr (fun a ha => by simp [h a ha])
  have hul : r.assets.find? (fun a => strEndsWith a.name ".exe") = none :=
    List.find?_eq_none.mpr (fun a ha => by simp [h a ha])
  constructor
  · simp [GitHubUpdateService.get_update_info, GitHubUpdateService.get_latest_release, hgs]
  · simp [GitHubUpdateChecker.get_update_info, GitHubUpdateChecker.get_latest_release, hul]

/-- C6 witness: a release `v2.0.0` whose only asset is `App.zip`. -/
theorem c6_no_exe_asset_witness :
    GitHubUpdateService.get_update_info (some [⟨"v2.0.0", [⟨"App.zip", "http://x/App.zip"⟩], "notes"⟩])
      = (some ⟨"v2.0.0", [⟨"App.zip", "http://x/App.zip"⟩], "notes"⟩, none,
          some (pyLstripV "v2.0.0"))
    ∧ GitHubUpdateChecker.get_update_info
        (some [⟨"v2.0.0", [⟨"App.zip", "http://x/App.zip"⟩], "notes"⟩]) = (none, none, none) :=
  c6_no_exe_asset ⟨"v2.0.0", [⟨"App.zip", "http://x/App.zip"⟩], "notes"⟩ [] (by decide)

/-- C6 counterexample: at the same feed, the checker revision does not
return the triple `(release, None, version)` stated by the claim — the
release descriptor and the parsed version are dropped as well. -/
theorem c6_no_exe_asset_counterexample :
    GitHubUpdateChecker.get_update_info
        (some [⟨"v2.0.0", [⟨"App.zip", "http://x/App.zip"⟩], "notes"⟩]) = (none, none, none)
    ∧ GitHubUpdateChecker.get_update_info
        (some [⟨"v2.0.0", [⟨"App.zip", "http://x/App.zip"⟩], "notes"⟩])
      ≠ (some ⟨"v2.0.0", [⟨"App.zip", "http://x/App.zip"⟩], "notes"⟩, none, some "2.0.0") := by
  exact ⟨by decide, by decide⟩

/-- C7 (amended): both revisions of the version enumeration strip every
leading `v` character from each release tag (Python `lstrip`), so no
returned version starts with `v`; a failed feed query returns the empty
set. -/
theorem c7_all_versions_strip_all (releases : List Release) (v : String) :
    (v ∈ GitHubUpdateService.get_all_versions (some releases) ↔
      v ∈ releases.map (fun r => pyLstripV r.tag_name))
    ∧ ((GitHubUpdateService.get_all_versions (some releases)).filter
        (fun s => s.data.head? = some 'v') = ∅)
    ∧ (v ∈ GitHubUpdateChecker.get_all_versions (some releases) ↔
      v ∈ releases.map (fun r => pyLstripV r.tag_name))
    ∧ GitHubUpdateService.get_all_versions none = ∅
    ∧ GitHubUpdateChecker.get_all_versions none = ∅ := by
  refine ⟨?_, ?_, ?_, rfl, rfl⟩
  · simp [GitHubUpdateService.get_all_versions]
  · rw [Finset.filter_eq_empty_iff]
    intro s hs
    simp only [GitHubUpdateService.get_all_versions, List.mem_toFinset, List.mem_map] at hs
    obtain ⟨r, _, rfl⟩ := hs
    intro hhead
    have hdrop : ((r.tag_name.data.dropWhile (fun c => decide (c = 'v'))).head? = some 'v') := by
      simpa [pyLstripV] using hhead
    have := head_dropWhile_false (fun c => decide (c = 'v')) r.tag_name.data 'v' hdrop
    simp at this
  · simp [GitHubUpdateChecker.get_all_versions]

/-- C7 witness: a single release tagged `v2.0.0`. -/
theorem c7_all_versions_strip_all_witness :
    ("2.0.0" ∈ GitHubUpdateService.get_all_versions (some [⟨"v2.0.0", [], ""⟩]) ↔
      "2.0.0" ∈ [⟨"v2.0.0", [], ""⟩].map (fun r => pyLstripV (Release.tag_name r)))
    ∧ ((GitHubUpdateService.get_all_versions (some [⟨"v2.0.0", [], ""⟩])).filter
        (fun s => s.data.head? = some 'v') = ∅)
    ∧ ("2.0.0" ∈ GitHubUpdateChecker.get_all_versions (some [⟨"v2.0.0", [], ""⟩]) ↔
      "2.0.0" ∈ [⟨"v2.0.0", [], ""⟩].map (fun r => pyLstripV (Release.tag_name r)))
    ∧ GitHubUpdateService.get_all_versions none = ∅
    ∧ GitHubUpdateChecker.get_all_versions none = ∅ :=
  c7_all_versions_strip_all [⟨"v2.0.0", [], ""⟩] "2.0.0"

/-- C7 counterexample: on the tag `vv1.0.0`, the code removes both
leading characters and returns `1.0.0`, while the claim states that only
the first one is removed, which would give `v1.0.0`; the returned set is
not the claimed one. -/
theorem c7_strip_counterexample :
    GitHubUpdateService.get_all_versions (some [⟨"vv1.0.0", [], ""⟩]) = {"1.0.0"}
    ∧ spec_strip_one_leading_v "vv1.0.0" = "v1.0.0"
    ∧ GitHubUpdateService.get_all_versions (some [⟨"vv1.0.0", [], ""⟩])
        ≠ ({spec_strip_one_leading_v "vv1.0.0"} : Finset String)
    ∧ GitHubUpdateChecker.get_all_versions (some [⟨"vv1.0.0", [], ""⟩])
        ≠ ({spec_strip_one_leading_v "vv1.0.0"} : Finset String) := by
  refine ⟨by decide, by decide, by decide, by decide⟩

/-- C2 (amended): when the response declares a content length of zero or
none at all, the update_manager worker terminates with the
`No content received` failure notification and never emits a completion
notification, whatever the body; the earlier update_logic worker has no
such guard and, on an empty body, emits the completion notification. -/
theorem c2_zero_content_length (cl : Option Nat) (chunks : List (List Nat))
    (h : cl = none ∨ cl = some 0) :
    DownloadWorker.download_file (HttpResult.ok ⟨cl, chunks⟩)
      = [DlEvent.status "Download failed: Download failed: No content received."]
    ∧ DlEvent.complete ∉ DownloadWorker.download_file (HttpResult.ok ⟨cl, chunks⟩)
    ∧ UpdateLogicDownloadWorker.download_file (HttpResult.ok ⟨cl, []⟩)
      = [DlEvent.complete] := by
  rcases h with rfl | rfl <;>
    refine ⟨by simp [DownloadWorker.download_file], ?_,
      by simp [UpdateLogicDownloadWorker.download_file, UpdateLogicDownloadWorker.chunk_events]⟩ <;>
    simp [DownloadWorker.download_file]

/-- C2 witness: declared length zero with a nonempty body for the
update_manager worker, and the empty body for the update_logic worker. -/
theorem c2_zero_content_length_witness :
    ((some 0 : Option Nat) = none ∨ (some 0 : Option Nat) = some 0)
    ∧ (DownloadWorker.download_file (HttpResult.ok ⟨some 0, [[1, 2], [3]]⟩)
        = [DlEvent.status "Download failed: Download failed: No content received."]
      ∧ DlEvent.complete ∉ DownloadWorker.download_file (HttpResult.ok ⟨some 0, [[1, 2], [3]]⟩)
      ∧ UpdateLogicDownloadWorker.download_file (HttpResult.ok ⟨some 0, []⟩)
        = [DlEvent.complete]) :=
  ⟨by decide, c2_zero_content_length (some 0) [[1, 2], [3]] (by decide)⟩

/-- C2 counterexample: with declared length zero and an empty body, the
update_logic worker emits exactly one completion notification and no
failure notification, contradicting the claim for that revision. -/
theorem c2_zero_content_length_counterexample :
    UpdateLogicDownloadWorker.download_file (HttpResult.ok ⟨some 0, []⟩) = [DlEvent.complete]
    ∧ DlEvent.complete ∈ UpdateLogicDownloadWorker.download_file (HttpResult.ok ⟨some 0, []⟩) := by
  exact ⟨by decide, by decide⟩

/-- C3: for a well-behaved download whose body totals exactly the declared
`N > 0` bytes in chunks of at most 8192 bytes, the update_manager worker
emits the progress values `floor(bytes so far * 100 / N)`, one per
nonempty chunk, followed by exactly one completion notification and
nothing afterwards; the progress values are non-decreasing, stay within
`[0, 100]` and end at `100`. -/
theorem c3_progress_sequence (N : Nat) (chunks : List (List Nat))
    (hpos : 0 < N)
    (_hchunk : ∀ c ∈ chunks, c.length ≤ 8192)
    (htot : total_bytes chunks = N) :
    DownloadWorker.download_file (HttpResult.ok ⟨some N, chunks⟩)
      = ((emit_points chunks 0).map (fun d => DlEvent.progress (d * 100 / N)))
          ++ [DlEvent.complete]
    ∧ List.Chain' (· ≤ ·) ((emit_points chunks 0).map (fun d => d * 100 / N))
    ∧ ((emit_points chunks 0).map (fun d => d * 100 / N)).all (fun p => decide (p ≤ 100)) = true
    ∧ ((emit_points chunks 0).map (fun d => d * 100 / N)).getLast? = some 100
    ∧ DlEvent.complete ∉ ((emit_points chunks 0).map (fun d => DlEvent.progress (d * 100 / N))) := by
  have hN0 : N ≠ 0 := Nat.pos_iff_ne_zero.mp hpos
  refine ⟨?_, ?_, ?_, ?_, ?_⟩
  · simp [DownloadWorker.download_file, hN0, chunk_events_eq_map]
  · exact (List.chain'_map _).mpr
      ((emit_points_chain chunks 0).imp
        (fun a b hab => Nat.div_le_div_right (Nat.mul_le_mul_right _ hab)))
  · rw [List.all_eq_true]
    intro p hp
    obtain ⟨d, hd, rfl⟩ := List.mem_map.mp hp
    have hdN : d ≤ N := by
      have := (emit_points_bounds chunks 0 d hd).2
      omega
    have : d * 100 / N ≤ N * 100 / N :=
      Nat.div_le_div_right (Nat.mul_le_mul_right _ hdN)
    rw [Nat.mul_div_cancel_left _ hpos] at this
    simpa using this
  · have hex : ∃ c ∈ chunks, c ≠ [] := by
      by_contra hno
      push_neg at hno
      have := total_bytes_eq_zero chunks hno
      omega
    rw [List.getLast?_map, emit_points_getLast chunks 0 hex]
    simp only [Option.map_some', Nat.zero_add, htot]
    rw [Nat.mul_div_cancel_left _ hpos]
  · intro hmem
    obtain ⟨d, _, heq⟩ := List.mem_map.mp hmem
    exact DlEvent.noConfusion heq

/-- C3 witness: a 3-byte body declared as 3 bytes, delivered as chunks of
2 and 1 bytes: progress 66 then 100, then one completion. -/
theorem c3_progress_sequence_witness :
    ((0 : Nat) < 3 ∧ (∀ c ∈ [[10, 20], [30]], List.length c ≤ 8192)
      ∧ total_bytes [[10, 20], [30]] = 3)
    ∧ DownloadWorker.download_file (HttpResult.ok ⟨some 3, [[10, 20], [30]]⟩)
        = [DlEvent.progress 66, DlEvent.progress 100, DlEvent.complete] :=
  ⟨⟨by decide, by decide, by decide⟩,
    (c3_progress_sequence 3 [[10, 20], [30]] (by decide) (by decide) (by decide)).1⟩

/-- C8: adding a nonempty word with a nonempty definitions list sets the
cache entry for that word to exactly that list, overwriting any prior
entry, leaves every other entry unchanged, and synchronously writes the
whole mapping to disk within the same operation. -/
theorem c8_add_to_cache (st : DictionaryState) (word : String) (defs : List Sense)
    (other : String) (h1 : word ≠ "") (h2 : defs ≠ []) (h3 : other ≠ word) :
    (add_to_cache st word defs).definitions_cache.lookup word = some defs
    ∧ (add_to_cache st word defs).definitions_cache.lookup other
        = st.definitions_cache.lookup other
    ∧ (add_to_cache st word defs).disk
        = some (cacheToJson (add_to_cache st word defs).definitions_cache) := by
  have hcond : ¬ (word = "" ∨ defs = []) := by simp [h1, h2]
  simp only [add_to_cache, if_neg hcond, save_cached_definitions]
  exact ⟨dictInsert_lookup_self _ _ _, dictInsert_lookup_other _ _ _ _ h3, trivial⟩

/-- C8 witness: overwriting the existing entry for `cat` while `dog`
stays untouched, with the new mapping flushed to disk. -/
theorem c8_add_to_cache_witness :
    (("cat" : String) ≠ "" ∧ ([⟨"small feline", ["a cat"]⟩] : List Sense) ≠ []
      ∧ ("dog" : String) ≠ "cat")
    ∧ ((add_to_cache ⟨[("cat", [⟨"old", []⟩]), ("dog", [⟨"canine", []⟩])], none⟩
          "cat" [⟨"small feline", ["a cat"]⟩]).definitions_cache.lookup "cat"
        = some [⟨"small feline", ["a cat"]⟩]
      ∧ (add_to_cache ⟨[("cat", [⟨"old", []⟩]), ("dog", [⟨"canine", []⟩])], none⟩
          "cat" [⟨"small feline", ["a cat"]⟩]).definitions_cache.lookup "dog"
        = ([("cat", [⟨"old", []⟩]), ("dog", [⟨"canine", []⟩])] :
            List (String × List Sense)).lookup "dog"
      ∧ (add_to_cache ⟨[("cat", [⟨"old", []⟩]), ("dog", [⟨"canine", []⟩])], none⟩
          "cat" [⟨"small feline", ["a cat"]⟩]).disk
        = some (cacheToJson (add_to_cache ⟨[("cat", [⟨"old", []⟩]), ("dog", [⟨"canine", []⟩])], none⟩
            "cat" [⟨"small feline", ["a cat"]⟩]).definitions_cache)) :=
  ⟨⟨by decide, by decide, by decide⟩,
    c8_add_to_cache ⟨[("cat", [⟨"old", []⟩]), ("dog", [⟨"canine", []⟩])], none⟩
      "cat" [⟨"small feline", ["a cat"]⟩] "dog" (by decide) (by decide) (by decide)⟩

/-- C9: saving a definitions mapping of the defined shape to the cache
document and loading it back reproduces the mapping exactly, both as the
bare encode/decode round trip and through the save and load operations
of the dictionary service. -/
theorem c9_cache_roundtrip (cache : List (String × List Sense)) (d : Option Json)
    (h : (cache.map Prod.fst).Nodup) :
    cacheOfJson (cacheToJson cache) = some cache
    ∧ load_cached_definitions (save_cached_definitions ⟨cache, d⟩) = cache := by
  have hfields := mapOpt_field_roundtrip cache
  have hfold := foldl_dictInsert_nodup cache [] h (fun kv _ kv₀ h₀ => absurd h₀ (List.not_mem_nil _))
  have hmain : cacheOfJson (cacheToJson cache) = some cache := by
    simp only [cacheToJson, cacheOfJson, hfields, hfold, List.nil_append]
  refine ⟨hmain, ?_⟩
  simp [save_cached_definitions, load_cached_definitions, hmain]

/-- C9 witness: a two-word mapping with examples survives the round
trip. -/
theorem c9_cache_roundtrip_witness :
    ((([("cat", [(⟨"feline", ["a cat"]⟩ : Sense)]), ("dog", [⟨"canine", []⟩])] :
        List (String × List Sense)).map Prod.fst).Nodup)
    ∧ (cacheOfJson (cacheToJson [("cat", [⟨"feline", ["a cat"]⟩]), ("dog", [⟨"canine", []⟩])])
        = some [("cat", [⟨"feline", ["a cat"]⟩]), ("dog", [⟨"canine", []⟩])]
      ∧ load_cached_definitions (save_cached_definitions
          ⟨[("cat", [⟨"feline", ["a cat"]⟩]), ("dog", [⟨"canine", []⟩])], none⟩)
        = [("cat", [⟨"feline", ["a cat"]⟩]), ("dog", [⟨"canine", []⟩])]) :=
  ⟨by decide,
    c9_cache_roundtrip [("cat", [⟨"feline", ["a cat"]⟩]), ("dog", [⟨"canine", []⟩])] none
      (by decide)⟩

/-- C10: neither revision of the definitions lookup ever returns an empty
list: the service returns `None` exactly for the empty word, a raising
lookup or a word with no senses, and otherwise a record per synset; the
module-level revision returns `None` exactly when the corpus has no
synsets for the word. -/
theorem c10_fetch_definitions_nonempty (synsetsOpt : String → Option (List Synset))
    (synsetsTot : String → List Synset) (word : String) :
    DictionaryService.fetch_definitions synsetsOpt word ≠ some []
    ∧ (DictionaryService.fetch_definitions synsetsOpt word = none ↔
        word = "" ∨ synsetsOpt word = none ∨ synsetsOpt word = some [])
    ∧ DictionaryManager.fetch_definitions synsetsTot word ≠ some []
    ∧ (DictionaryManager.fetch_definitions synsetsTot word = none ↔ synsetsTot word = []) := by
  refine ⟨?_, ?_, ?_, ?_⟩
  · by_cases hw : word = ""
    · simp [DictionaryService.fetch_definitions, hw]
    · rcases hs : synsetsOpt word with _ | ⟨_ | ⟨s, ss⟩⟩ <;>
        simp [DictionaryService.fetch_definitions, hw, hs]
  · by_cases hw : word = ""
    · simp [DictionaryService.fetch_definitions, hw]
    · rcases hs : synsetsOpt word with _ | ⟨_ | ⟨s, ss⟩⟩ <;>
        simp [DictionaryService.fetch_definitions, hw, hs]
  · by_cases hm : ((synsetsTot word).map
        (fun s => (⟨s.gloss, s.examples⟩ : Sense))) = [] <;>
      simp [DictionaryManager.fetch_definitions, hm]
  · by_cases hm : ((synsetsTot word).map
        (fun s => (⟨s.gloss, s.examples⟩ : Sense))) = [] <;>
      simp [DictionaryManager.fetch_definitions, hm] <;>
      simpa using hm

/-- C10 witness: a corpus with one synset for every word, at the word
`cat`. -/
theorem c10_fetch_definitions_nonempty_witness :
    DictionaryService.fetch_definitions (fun _ => some [⟨"feline", ["a cat"]⟩]) "cat" ≠ some []
    ∧ (DictionaryService.fetch_definitions (fun _ => some [⟨"feline", ["a cat"]⟩]) "cat" = none ↔
        ("cat" : String) = ""
          ∨ (some [(⟨"feline", ["a cat"]⟩ : Synset)] : Option (List Synset)) = none
          ∨ (some [(⟨"feline", ["a cat"]⟩ : Synset)] : Option (List Synset)) = some [])
    ∧ DictionaryManager.fetch_definitions (fun _ => [⟨"feline", ["a cat"]⟩]) "cat" ≠ some []
    ∧ (DictionaryManager.fetch_definitions (fun _ => [⟨"feline", ["a cat"]⟩]) "cat" = none ↔
        ([(⟨"feline", ["a cat"]⟩ : Synset)] : List Synset) = []) :=
  c10_fetch_definitions_nonempty (fun _ => some [⟨"feline", ["a cat"]⟩])
    (fun _ => [⟨"feline", ["a cat"]⟩]) "cat"
